import Mathlib

/-!
Verification of the oidc-agent core claims against a shallow embedding of
`src/utils/crypt/cryptUtils.c`, `src/oidc-agent/oidcd/jose/oidc_jwk.c` and
`src/oidc-add/oidc-add_options.h`.

C strings (`char*`) are modelled as `List Char`; nullable pointers as
`Option (List Char)`.  A C function that returns `NULL` and sets the global
`oidc_errno` is modelled as returning `Except OidcError α`.
-/

set_option autoImplicit false

namespace OidcAgent

/-- The error kinds relevant to the embedded functions.  Constructor names keep
the `oidc_errno` macro names of the source; `jwksAmbiguous` is the spec's
`jwks_ambiguous` error kind (never produced by this code). -/
inductive OidcError where
  | OIDC_EARGNULLFUNC
  | OIDC_ECRYPM
  | OIDC_EPASS
  | OIDC_EJWKURINO
  | OIDC_NOTIMPL
  | OIDC_EERROR
  | OIDC_EHTTP
  | jwksAmbiguous
deriving DecidableEq, Repr

/-! ## List splitting

`delimitedStringToList` (utils/listUtils.c, not in src/) splits a string on a
delimiter; the spec says `load` "splits on newline". -/

/-- Split a character list at every occurrence of the delimiter `d`. -/
def splitOnChar (d : Char) : List Char → List (List Char)
  | [] => [[]]
  | c :: rest =>
    if c = d then [] :: splitOnChar d rest
    else
      match splitOnChar d rest with
      | [] => [[c]]
      | t :: ts => (c :: t) :: ts

/-- Modelled from the spec: `delimitedStringToList` (utils/listUtils.c is not in
src/) splits the file content on the delimiter character. -/
def delimitedStringToList (content : List Char) (delim : Char) : List (List Char) :=
  splitOnChar delim content

theorem splitOnChar_ne_nil (d : Char) (l : List Char) : splitOnChar d l ≠ [] := by
  cases l with
  | nil => simp [splitOnChar]
  | cons c rest =>
    simp only [splitOnChar]
    by_cases h : c = d
    · simp [h]
    · simp only [if_neg h]
      cases splitOnChar d rest with
      | nil => simp
      | cons t ts => simp

theorem splitOnChar_of_not_mem (d : Char) (l : List Char) (h : d ∉ l) :
    splitOnChar d l = [l] := by
  induction l with
  | nil => rfl
  | cons c rest ih =>
    have hc : c ≠ d := fun hcd => h (by simp [hcd])
    have hr : d ∉ rest := fun hd => h (by simp [hd])
    simp only [splitOnChar, if_neg hc, ih hr]

theorem splitOnChar_append (d : Char) (a b : List Char) (h : d ∉ a) :
    splitOnChar d (a ++ d :: b) = a :: splitOnChar d b := by
  induction a with
  | nil => simp [splitOnChar]
  | cons c rest ih =>
    have hc : c ≠ d := fun hcd => h (by simp [hcd])
    have hr : d ∉ rest := fun hd => h (by simp [hd])
    simp only [List.cons_append, splitOnChar, if_neg hc, List.append_eq, ih hr]

/-- Splitting a two-line text whose halves are delimiter-free gives the two lines. -/
theorem splitOnChar_two_lines (d : Char) (a b : List Char) (ha : d ∉ a) (hb : d ∉ b) :
    splitOnChar d (a ++ d :: b) = [a, b] := by
  rw [splitOnChar_append d a b ha, splitOnChar_of_not_mem d b hb]

/-! ## Version utilities

`versionUtils.c` and `defines/version.h` are not in src/; they are modelled
from the spec (§4.2): a version line has the form `@oidc-agent <semver>`,
version comparison is lexicographic on dotted numeric components with shorter
component lists treated as zero-extended, and a missing version counts as
`0.0.0`. -/

/-- Numeric value of a digit run (most significant first). -/
def natOfDigits (l : List Char) : Nat :=
  l.foldl (fun a c => a * 10 + (c.toNat - 48)) 0

/-- The leading tag of a version line. -/
def versionLineTag : List Char := "@oidc-agent ".toList

/-- Modelled from the spec: `simpleVersionToVersionLine` (versionUtils.c is not
in src/) renders the version line `@oidc-agent <version>`. -/
def simpleVersionToVersionLine (v : List Char) : List Char :=
  versionLineTag ++ v

/-- Modelled from the spec: `versionLineToSimpleVersion` (versionUtils.c is not
in src/) extracts `<version>` from a line `@oidc-agent <version>`; a NULL or
non-matching line yields NULL. -/
def versionLineToSimpleVersion (line : Option (List Char)) : Option (List Char) :=
  match line with
  | none => none
  | some l => if l.take 12 = versionLineTag then some (l.drop 12) else none

/-- Modelled from the spec: the numeric components of a dotted version string;
a missing (NULL) version is treated as `0.0.0`. -/
def versionComponents : Option (List Char) → List Nat
  | none => [0, 0, 0]
  | some v => (splitOnChar '.' v).map (fun comp => natOfDigits (comp.takeWhile Char.isDigit))

/-- Does a component list compare strictly above the all-zero version?  This is
`verLt [] bs` unfolded: zero-extension means `[] < bs` exactly when the first
nonzero-or-end decision meets a positive component. -/
def verPos : List Nat → Bool
  | [] => false
  | b :: bs => 0 < b || (b = 0 && verPos bs)

/-- Lexicographic strict order on component lists, missing components read as
zero: `a :: as < [] ` is always false (nothing is below all zeros), and
`[] < bs` holds when `bs` is positive. -/
def verLt : List Nat → List Nat → Bool
  | [], bs => verPos bs
  | _ :: _, [] => false
  | a :: as, b :: bs => a < b || (a = b && verLt as bs)

/-- Modelled from the spec: `versionAtLeast(version, min)` (versionUtils.c is
not in src/) compares the dotted versions. -/
def versionAtLeast (v : Option (List Char)) (minV : List Char) : Bool :=
  !(verLt (versionComponents v) (versionComponents (some minV)))

/-- `MIN_BASE64_VERSION` (defines/version.h, not in src/): the spec fixes the
Modern-format cutover at version 2.1.0. -/
def MIN_BASE64_VERSION : List Char := "2.1.0".toList

/-- Modelled from the spec: `VERSION` (defines/version.h is not in src/) is the
current producing version; the spec requires re-saves to be Modern (≥ 2.1.0),
so any concrete Modern version serves as a stand-in. -/
def VERSION : List Char := "4.0.2".toList

/-! ## The authenticated-encryption model

`crypt.c`/`hexCrypt.c` are not in src/.  Modelled from the spec (§4.1): the
Modern envelope is a single newline-free line holding salt, nonce, KDF
parameters, ciphertext and tag; decryption with the right password returns the
plaintext, a wrong password fails with `mac_mismatch` (OIDC_EPASS), and a
malformed envelope fails with `format_invalid` (OIDC_ECRYPM).  The cipher and
KDF internals are abstracted: the envelope is an injective, newline-free
encoding of the password and plaintext, and the MAC check is modelled as the
password comparison. -/

/-- Escape one character so that the result is free of `'\n'` and `':'`. -/
def escChar (c : Char) : List Char :=
  if c = '\n' then ['\\', 'n']
  else if c = '\\' then ['\\', '\\']
  else if c = ':' then ['\\', 'c']
  else [c]

/-- Escape a character list (the model's stand-in for base64url encoding). -/
def escape : List Char → List Char
  | [] => []
  | c :: rest => escChar c ++ escape rest

/-- Invert `escape`; `none` on a malformed escape sequence. -/
def unescape : List Char → Option (List Char)
  | [] => some []
  | c :: rest =>
    if c = '\\' then
      match rest with
      | [] => none
      | d :: rest2 =>
        if d = 'n' then (unescape rest2).map (fun l => '\n' :: l)
        else if d = '\\' then (unescape rest2).map (fun l => '\\' :: l)
        else if d = 'c' then (unescape rest2).map (fun l => ':' :: l)
        else none
    else (unescape rest).map (fun l => c :: l)

theorem not_mem_escChar (c x : Char) (hx : x = '\n' ∨ x = ':') : x ∉ escChar c := by
  unfold escChar
  rcases hx with hx | hx <;> subst hx <;> split_ifs with h1 h2 h3
  · decide
  · decide
  · decide
  · intro hm
    rw [List.mem_singleton] at hm
    exact h1 hm.symm
  · decide
  · decide
  · decide
  · intro hm
    rw [List.mem_singleton] at hm
    exact h3 hm.symm

theorem not_mem_escape (l : List Char) (x : Char) (hx : x = '\n' ∨ x = ':') :
    x ∉ escape l := by
  induction l with
  | nil => simp [escape]
  | cons c rest ih =>
    simp only [escape, List.mem_append]
    rintro (h | h)
    · exact not_mem_escChar c x hx h
    · exact ih h

theorem unescape_escape (l : List Char) : unescape (escape l) = some l := by
  induction l with
  | nil => rfl
  | cons c rest ih =>
    by_cases h1 : c = '\n'
    · subst h1
      show unescape ('\\' :: 'n' :: escape rest) = some ('\n' :: rest)
      rw [unescape.eq_def]
      simp [ih]
    · by_cases h2 : c = '\\'
      · subst h2
        show unescape ('\\' :: '\\' :: escape rest) = some ('\\' :: rest)
        rw [unescape.eq_def]
        simp [ih]
      · by_cases h3 : c = ':'
        · subst h3
          show unescape ('\\' :: 'c' :: escape rest) = some (':' :: rest)
          rw [unescape.eq_def]
          simp [ih]
        · have hesc : escChar c = [c] := by simp [escChar, h1, h2, h3]
          show unescape (escChar c ++ escape rest) = some (c :: rest)
          rw [hesc, List.singleton_append, unescape.eq_def]
          simp only [if_neg h2, ih, Option.map_some']

/-- Modelled from the spec: `crypt_encrypt` (crypt.c is not in src/) produces
the Modern one-line envelope for the plaintext under the password. -/
def crypt_encrypt (text password : List Char) : List Char :=
  escape password ++ ':' :: escape text

/-- Modelled from the spec: `crypt_decrypt` (crypt.c is not in src/) opens a
Modern envelope: `format_invalid` on a malformed envelope, `mac_mismatch` on a
wrong password, otherwise the plaintext. -/
def crypt_decrypt (cipher password : List Char) : Except OidcError (List Char) :=
  match splitOnChar ':' cipher with
  | [p, t] =>
    match unescape p, unescape t with
    | some pw, some text =>
      if pw = password then Except.ok text else Except.error OidcError.OIDC_EPASS
    | _, _ => Except.error OidcError.OIDC_ECRYPM
  | _ => Except.error OidcError.OIDC_ECRYPM

theorem crypt_encrypt_no_newline (text password : List Char) :
    '\n' ∉ crypt_encrypt text password := by
  unfold crypt_encrypt
  simp only [List.mem_append, List.mem_cons]
  rintro (h | h | h)
  · exact not_mem_escape password '\n' (Or.inl rfl) h
  · exact absurd h (by decide)
  · exact not_mem_escape text '\n' (Or.inl rfl) h

theorem crypt_decrypt_crypt_encrypt (text password : List Char) :
    crypt_decrypt (crypt_encrypt text password) password = Except.ok text := by
  unfold crypt_decrypt crypt_encrypt
  rw [splitOnChar_two_lines ':' (escape password) (escape text)
    (not_mem_escape password ':' (Or.inr rfl)) (not_mem_escape text ':' (Or.inr rfl))]
  simp [unescape_escape]

/-- Modelled from the spec: `crypt_decryptFromList` (crypt.c is not in src/)
decrypts the Modern format from the split file lines; the first line is the
envelope. -/
def crypt_decryptFromList (lines : List (List Char)) (password : List Char) :
    Except OidcError (List Char) :=
  match lines.head? with
  | some env => crypt_decrypt env password
  | none => Except.error OidcError.OIDC_ECRYPM

/-- Modelled from the spec: legacy authenticated decryption (`crypt_decrypt_hex`
in crypt.c/hexCrypt.c, not in src/).  The AEAD primitive is abstracted the same
way as in `crypt_decrypt`; the `cipher_len`, nonce and salt parameters feed the
abstracted primitive and do not affect the claims settled here. -/
def crypt_decrypt_hex (cipherEnc : List Char) (cipherLen : Int)
    (password nonce salt : List Char) : Except OidcError (List Char) :=
  match unescape cipherEnc with
  | some m =>
    match splitOnChar ':' m with
    | [pw, text] =>
      if pw = password then Except.ok text
      else Except.error OidcError.OIDC_EPASS
    | _ => Except.error OidcError.OIDC_ECRYPM
  | none => Except.error OidcError.OIDC_ECRYPM

/-! ## String-to-number parsing (stringUtils.c, not in src/) -/

/-- C `isspace` on the ASCII range. -/
def isSpaceC (c : Char) : Bool :=
  c = ' ' || c = '\t' || c = '\n' || c = '\x0b' || c = '\x0c' || c = '\r'

/-- C `atoi`: skip whitespace, optional sign, then the leading digit run;
anything after the digits is ignored. -/
def atoi (s : List Char) : Int :=
  match s.dropWhile isSpaceC with
  | [] => 0
  | c :: rest =>
    if c = '-' then -(natOfDigits (rest.takeWhile Char.isDigit) : Int)
    else if c = '+' then (natOfDigits (rest.takeWhile Char.isDigit) : Int)
    else (natOfDigits ((c :: rest).takeWhile Char.isDigit) : Int)

/-- Modelled from the spec: `strToInt` (utils/stringUtils.c is not in src/)
parses a decimal number, yielding 0 for NULL or a string with no number. -/
def strToInt (s : Option (List Char)) : Int :=
  match s with
  | none => 0
  | some l => atoi l

/-! ## cryptUtils.c -/

/-- The token sequence produced by repeated `strtok(. , ":")`: maximal
non-empty runs between delimiters. -/
def strtokToks (s : List Char) (d : Char) : List (List Char) :=
  (splitOnChar d s).filter (fun t => t ≠ [])

/-- Embedding of `decryptHexFileContent` (cryptUtils.c lines 42-58): tokenize
the legacy one-line format `<len>:<hex_salt>:<hex_nonce>:<hex_cipher>`, fail
with OIDC_ECRYPM when the length is 0 or a field is missing, otherwise hand the
fields to `crypt_decrypt_hex`. -/
def decryptHexFileContent (cipher password : List Char) : Except OidcError (List Char) :=
  let toks := strtokToks cipher ':'
  let cipher_len := strToInt (toks.get? 0)
  let salt_encoded := toks.get? 1
  let nonce_encoded := toks.get? 2
  let cipher_encoded := toks.get? 3
  if cipher_len = 0 ∨ salt_encoded = none ∨ nonce_encoded = none ∨ cipher_encoded = none then
    Except.error OidcError.OIDC_ECRYPM
  else
    crypt_decrypt_hex (cipher_encoded.getD []) cipher_len password
      (nonce_encoded.getD []) (salt_encoded.getD [])

/-- Embedding of `decryptLinesList` (cryptUtils.c lines 70-87): a NULL list is
rejected; the version line is the last line when there is more than one line;
at version ≥ MIN_BASE64_VERSION the Modern decoder runs on the lines, otherwise
the legacy hex decoder runs on the first line. -/
def decryptLinesList (lines : Option (List (List Char))) (password : List Char) :
    Except OidcError (List Char) :=
  match lines with
  | none => Except.error OidcError.OIDC_EARGNULLFUNC
  | some ls =>
    if versionAtLeast
        (versionLineToSimpleVersion (if ls.length > 1 then ls.getLast? else none))
        MIN_BASE64_VERSION then
      crypt_decryptFromList ls password
    else
      match ls.head? with
      | some cipher => decryptHexFileContent cipher password
      | none =>
        -- an empty list would make the C code pass NULL into
        -- decryptHexFileContent (undefined); unreachable from decryptFileContent
        Except.error OidcError.OIDC_EARGNULLFUNC

/-- Embedding of `decryptFileContent` (cryptUtils.c lines 27-32): split the file
content on newlines and decrypt the line list. -/
def decryptFileContent (fileContent password : List Char) : Except OidcError (List Char) :=
  decryptLinesList (some (delimitedStringToList fileContent '\n')) password

/-- Embedding of `decryptText` (cryptUtils.c lines 100-111): NULL cipher or
password is rejected (a NULL version is allowed); version ≥ MIN_BASE64_VERSION
selects the Modern decoder, otherwise the legacy hex decoder. -/
def decryptText (cipher password version : Option (List Char)) :
    Except OidcError (List Char) :=
  match cipher, password with
  | some c, some pw =>
    if versionAtLeast version MIN_BASE64_VERSION then crypt_decrypt c pw
    else decryptHexFileContent c pw
  | _, _ => Except.error OidcError.OIDC_EARGNULLFUNC

/-- Embedding of `encryptText` (cryptUtils.c lines 122-124). -/
def encryptText (text password : List Char) : List Char :=
  crypt_encrypt text password

/-- Embedding of `encryptWithVersionLine` (cryptUtils.c lines 133-140):
`oidc_sprintf("%s\n%s", crypt, version_line)`. -/
def encryptWithVersionLine (text password : List Char) : List Char :=
  encryptText text password ++ '\n' :: simpleVersionToVersionLine VERSION

/-! ## randomString (cryptUtils.c lines 142-155)

`randomFillBase64UrlSafe` and `oidc_memshiftr` (crypt.c / utils/memory, not in
src/) are modelled from the spec: the buffer is filled with random base64url
characters, and `oidc_memshiftr` rotates the buffer by one position.  The
random fill is represented by the `buf` argument, and the recursive retry by
the `none` result. -/

/-- Modelled from the spec: `oidc_memshiftr` rotates the buffer right by one. -/
def oidc_memshiftr (l : List Char) : List Char :=
  match l.reverse with
  | [] => []
  | c :: rest => c :: rest.reverse

/-- C `isalnum(str[0])` on the buffer (false for the empty buffer). -/
def headAlnum : List Char → Bool
  | [] => false
  | c :: _ => c.isAlphanum

/-- The rotation loop of `randomString`: the first character is tested before
each of the at most `fuel` rotations; `none` models `shifts >= len`, i.e. the
recursive retry with a fresh random buffer. -/
def rotateLoop : Nat → List Char → Option (List Char)
  | 0, _ => none
  | n + 1, s => if headAlnum s then some s else rotateLoop n (oidc_memshiftr s)

/-- Embedding of `randomString` (cryptUtils.c lines 142-155) for one random
fill `buf` of length `len`: rotate until the first character is alphanumeric,
at most `len` times; `none` models the retry path. -/
def randomString (len : Nat) (buf : List Char) : Option (List Char) :=
  rotateLoop len buf

/-! ## JSON model and oidc_jwk.c

`utils/json.c` and the external cjose library are not in src/.  JSON documents
and JWKs are modelled as a parsed tree: the byte-level parse/serialize steps of
the C code are modelled as the identity on this tree, so `getJSONValueFromString`
becomes object-member lookup and a JWK is its JSON object. -/

/-- A JSON value (the fragments these claims need). -/
inductive Json where
  | str : List Char → Json
  | num : Int → Json
  | boolean : Bool → Json
  | null : Json
  | arr : List Json → Json
  | obj : List (List Char × Json) → Json

/-- First-match member lookup in a JSON object, as cJSON does. -/
def jsonLookup (key : List Char) : List (List Char × Json) → Option Json
  | [] => none
  | kv :: rest => if kv.1 = key then some kv.2 else jsonLookup key rest

/-- Modelled from the spec: `getJSONValueFromString` (utils/json.c is not in
src/) parses a document and extracts the named member; NULL when the document
is not an object or has no such member. -/
def getJSONValueFromString (doc : Json) (key : List Char) : Option Json :=
  match doc with
  | Json.obj members => jsonLookup key members
  | _ => none

/-- Modelled from the spec: `JSONArrayStringToList` (utils/json.c is not in
src/) turns a JSON array into the list of its elements; NULL on a non-array. -/
def JSONArrayStringToList (j : Json) : Option (List Json) :=
  match j with
  | Json.arr l => some l
  | _ => none

/-- Modelled from usage: `listValid` (utils/listUtils, not in src/) holds for a
non-NULL, non-empty list. -/
def listValid (l : Option (List Json)) : Bool :=
  match l with
  | none => false
  | some xs => !xs.isEmpty

/-- Modelled: `cjose_jwk_import` (external cjose library) parses JSON text into
a JWK; modelled as requiring a JSON object. -/
def cjose_jwk_import (j : Json) : Option Json :=
  match j with
  | Json.obj members => some (Json.obj members)
  | _ => none

/-- Modelled: `cjose_jwk_to_json` (external cjose library) serializes a JWK to
its JSON object; the private-member filtering controlled by `withPrivate` is
orthogonal to the claims and not modelled. -/
def cjose_jwk_to_json (jwk : Json) (withPrivate : Bool) : Option Json :=
  match jwk with
  | Json.obj members => some (Json.obj members)
  | _ => none

/-- Modelled from the spec: `jsonAddStringValue` (utils/json.c is not in src/)
appends a string member to a JSON object. -/
def jsonAddStringValue (json : Json) (key value : List Char) : Option Json :=
  match json with
  | Json.obj members => some (Json.obj (members ++ [(key, Json.str value)]))
  | _ => none

/-- `JWK_USE_SIG` (oidc_jwk.c line 16). -/
def JWK_USE_SIG : List Char := "sig".toList

/-- `JWK_USE_ENC` (oidc_jwk.c line 17). -/
def JWK_USE_ENC : List Char := "enc".toList

/-- Embedding of `import_jwk` (oidc_jwk.c lines 52-67): NULL key rejected,
otherwise the cjose import, whose failure sets an internal error. -/
def import_jwk (key : Option Json) : Except OidcError Json :=
  match key with
  | none => Except.error OidcError.OIDC_EARGNULLFUNC
  | some k =>
    match cjose_jwk_import k with
    | none => Except.error OidcError.OIDC_EERROR
    | some jwk => Except.ok jwk

/-- Embedding of `export_jwk` (oidc_jwk.c lines 27-50): NULL key rejected;
serialize via cjose, then add the `use` member. -/
def export_jwk (jwk : Option Json) (withPrivate : Bool) (use : List Char) :
    Except OidcError Json :=
  match jwk with
  | none => Except.error OidcError.OIDC_EARGNULLFUNC
  | some k =>
    match cjose_jwk_to_json k withPrivate with
    | none => Except.error OidcError.OIDC_EERROR
    | some json =>
      match jsonAddStringValue json ("use".toList) use with
      | some jsonWithUse => Except.ok jsonWithUse
      | none =>
        -- unreachable: the cjose serialization always yields an object
        Except.error OidcError.OIDC_EERROR

/-- Embedding of `export_jwk_sig` (oidc_jwk.c lines 19-21). -/
def export_jwk_sig (jwk : Option Json) (withPrivate : Bool) : Except OidcError Json :=
  export_jwk jwk withPrivate JWK_USE_SIG

/-- Embedding of `export_jwk_enc` (oidc_jwk.c lines 23-25). -/
def export_jwk_enc (jwk : Option Json) (withPrivate : Bool) : Except OidcError Json :=
  export_jwk jwk withPrivate JWK_USE_ENC

/-- Embedding of `import_jwk_fromURI` (oidc_jwk.c lines 69-103).  `response`
models the body returned by `httpsGET` (`none` = NULL, with the error kind set
by the HTTP layer represented as OIDC_EHTTP): NULL arguments are rejected; a
missing `keys` member or an invalid/empty `keys` array fails with
OIDC_EJWKURINO; exactly one key is imported; more than one key fails with
OIDC_NOTIMPL. -/
def import_jwk_fromURI (jwk_uri cert_path : Option (List Char))
    (response : Option Json) : Except OidcError Json :=
  match jwk_uri, cert_path with
  | some _, some _ =>
    match response with
    | none => Except.error OidcError.OIDC_EHTTP
    | some res =>
      match getJSONValueFromString res ("keys".toList) with
      | none => Except.error OidcError.OIDC_EJWKURINO
      | some keys_arr =>
        let keys := JSONArrayStringToList keys_arr
        if listValid keys then
          match keys with
          | some [k] => import_jwk (some k)
          | _ => Except.error OidcError.OIDC_NOTIMPL
        else Except.error OidcError.OIDC_EJWKURINO
  | _, _ => Except.error OidcError.OIDC_EARGNULLFUNC

/-! ## oidc-add_options.h: the argp option parser -/

/-- `struct lifetimeArg` (add_handler.h, via oidc-add_options.h). -/
structure LifetimeArg where
  lifetime : Int
  argProvided : Bool
deriving DecidableEq, Repr

/-- `struct arguments` (oidc-add_options.h lines 9-21); C ints used as flags
are modelled as Bool and `args[1]` as an optional account shortname. -/
structure Arguments where
  account : Option (List Char)
  remove : Bool
  removeAll : Bool
  debug : Bool
  verbose : Bool
  list : Bool
  print : Bool
  lifetime : LifetimeArg
  lock : Bool
  unlock : Bool
  seccomp : Bool
deriving DecidableEq, Repr

/-- Embedding of `initArguments` (oidc-add_options.h lines 100-113). -/
def initArguments : Arguments :=
  { account := none, remove := false, removeAll := false, debug := false,
    verbose := false, list := false, print := false,
    lifetime := { lifetime := 0, argProvided := false },
    lock := false, unlock := false, seccomp := false }

/-- The keys delivered to `parse_opt` by argp: each short option, the
`--lifetime` and positional-argument keys carrying their `char* arg`, and
`ARGP_KEY_END`. -/
inductive ArgpKey where
  | key_r | key_R | key_g | key_v | key_p | key_l | key_x | key_X
  | key_t (arg : List Char)
  | key_seccomp
  | key_h
  | key_arg (arg : List Char)
  | key_end
deriving DecidableEq, Repr

/-- The outcome of one `parse_opt` call: an updated state (`arguments` plus
argp's `arg_num`), `argp_usage` (which prints usage and exits),
`ARGP_ERR_UNKNOWN`, or the `argp_state_help(... STD_HELP)` exit. -/
inductive ParseOutcome where
  | ok (st : Arguments × Nat)
  | usage
  | errUnknown
  | helpExit
deriving DecidableEq, Repr

/-- C `isdigit(*arg)`; the first character of an empty C string is `'\0'`,
which is not a digit. -/
def headIsDigit : List Char → Bool
  | [] => false
  | c :: _ => c.isDigit

/-- Embedding of `parse_opt` (oidc-add_options.h lines 51-91).  On success argp
increments `arg_num` after an `ARGP_KEY_ARG` delivery; that bookkeeping is
folded into the returned state. -/
def parse_opt (key : ArgpKey) (st : Arguments × Nat) : ParseOutcome :=
  let arguments := st.1
  match key with
  | ArgpKey.key_r => ParseOutcome.ok ({ arguments with remove := true }, st.2)
  | ArgpKey.key_R => ParseOutcome.ok ({ arguments with removeAll := true }, st.2)
  | ArgpKey.key_g => ParseOutcome.ok ({ arguments with debug := true }, st.2)
  | ArgpKey.key_v => ParseOutcome.ok ({ arguments with verbose := true }, st.2)
  | ArgpKey.key_p => ParseOutcome.ok ({ arguments with print := true }, st.2)
  | ArgpKey.key_l => ParseOutcome.ok ({ arguments with list := true }, st.2)
  | ArgpKey.key_x => ParseOutcome.ok ({ arguments with lock := true }, st.2)
  | ArgpKey.key_X => ParseOutcome.ok ({ arguments with unlock := true }, st.2)
  | ArgpKey.key_t arg =>
    if headIsDigit arg then
      ParseOutcome.ok
        ({ arguments with lifetime := { lifetime := atoi arg, argProvided := true } }, st.2)
    else ParseOutcome.errUnknown
  | ArgpKey.key_seccomp => ParseOutcome.ok ({ arguments with seccomp := true }, st.2)
  | ArgpKey.key_h => ParseOutcome.helpExit
  | ArgpKey.key_arg arg =>
    if st.2 ≥ 1 then ParseOutcome.usage
    else ParseOutcome.ok ({ arguments with account := some arg }, st.2 + 1)
  | ArgpKey.key_end =>
    if arguments.list || arguments.lock || arguments.unlock || arguments.removeAll then
      ParseOutcome.ok st
    else if st.2 < 1 then ParseOutcome.usage
    else ParseOutcome.ok st

/-- The argp driver: feed the command-line keys in order, then `ARGP_KEY_END`. -/
def argp_parse_loop : List ArgpKey → Arguments × Nat → ParseOutcome
  | [], st => parse_opt ArgpKey.key_end st
  | k :: ks, st =>
    match parse_opt k st with
    | ParseOutcome.ok st2 => argp_parse_loop ks st2
    | other => other

/-- Parse a full oidc-add command line from the initial state. -/
def argp_parse (keys : List ArgpKey) : ParseOutcome :=
  argp_parse_loop keys (initArguments, 0)

/-! ## Theorems for the claims -/

theorem versionLine_roundtrip :
    versionLineToSimpleVersion (some (simpleVersionToVersionLine VERSION)) = some VERSION := by
  decide

theorem versionAtLeast_VERSION :
    versionAtLeast (some VERSION) MIN_BASE64_VERSION = true := by
  decide

theorem versionAtLeast_none_min :
    versionAtLeast none MIN_BASE64_VERSION = false := by
  decide

/-- C1: decrypting (at the file level) the output of `encryptWithVersionLine`
with the same password returns exactly the original plaintext. -/
theorem decryptFileContent_encryptWithVersionLine (text password : List Char) :
    decryptFileContent (encryptWithVersionLine text password) password = Except.ok text := by
  show decryptLinesList
      (some (splitOnChar '\n'
        (crypt_encrypt text password ++ '\n' :: simpleVersionToVersionLine VERSION)))
      password = Except.ok text
  rw [splitOnChar_two_lines '\n' _ _ (crypt_encrypt_no_newline text password) (by decide)]
  show decryptLinesList
      (some [crypt_encrypt text password, simpleVersionToVersionLine VERSION]) password
      = Except.ok text
  simp only [decryptLinesList]
  rw [if_pos (by norm_num : ([crypt_encrypt text password,
    simpleVersionToVersionLine VERSION] : List (List Char)).length > 1)]
  rw [List.getLast?_cons_cons, List.getLast?_singleton, versionLine_roundtrip,
    if_pos versionAtLeast_VERSION]
  show crypt_decrypt (crypt_encrypt text password) password = Except.ok text
  exact crypt_decrypt_crypt_encrypt text password

/-- C5 (amended): `encryptWithVersionLine` emits the Modern two-line format:
the envelope produced by `encryptText`, a newline, then the producing-version
line `@oidc-agent <version>` — with no trailing newline. -/
theorem encryptWithVersionLine_format (text password : List Char) :
    encryptWithVersionLine text password
      = encryptText text password ++ '\n' :: simpleVersionToVersionLine VERSION
    ∧ splitOnChar '\n' (encryptWithVersionLine text password)
      = [encryptText text password, simpleVersionToVersionLine VERSION]
    ∧ simpleVersionToVersionLine VERSION = "@oidc-agent ".toList ++ VERSION := by
  refine ⟨rfl, ?_, rfl⟩
  exact splitOnChar_two_lines '\n' _ _ (crypt_encrypt_no_newline text password) (by decide)

/-- C5 counterexample: the claimed trailing newline is absent — the file
content produced for a concrete plaintext and password does not end in a
newline character. -/
theorem encryptWithVersionLine_no_trailing_newline :
    (encryptWithVersionLine ("x".toList) ("p".toList)).getLast? ≠ some '\n' := by
  decide

/-- C2: `decryptFileContent` splits on newline and selects the decoder by the
last line: a single-line file goes to the legacy hex decoder; with more than
one line, a last line parsing to a version ≥ 2.1.0 selects the Modern decoder
and anything else the legacy hex decoder on the first line; a missing version
compares exactly like `0.0.0`. -/
theorem decryptFileContent_routing (content password : List Char) :
    ((delimitedStringToList content '\n').length ≤ 1 →
       decryptFileContent content password
         = decryptHexFileContent ((delimitedStringToList content '\n').headD []) password)
    ∧ ((delimitedStringToList content '\n').length > 1 →
       versionAtLeast (versionLineToSimpleVersion (delimitedStringToList content '\n').getLast?)
           MIN_BASE64_VERSION = true →
       decryptFileContent content password
         = crypt_decryptFromList (delimitedStringToList content '\n') password)
    ∧ ((delimitedStringToList content '\n').length > 1 →
       versionAtLeast (versionLineToSimpleVersion (delimitedStringToList content '\n').getLast?)
           MIN_BASE64_VERSION = false →
       decryptFileContent content password
         = decryptHexFileContent ((delimitedStringToList content '\n').headD []) password)
    ∧ (∀ minV, versionAtLeast none minV = versionAtLeast (some ("0.0.0".toList)) minV) := by
  obtain ⟨c, cs, hcl⟩ := List.exists_cons_of_ne_nil (splitOnChar_ne_nil '\n' content)
  have hdel : delimitedStringToList content '\n' = c :: cs := hcl
  refine ⟨?_, ?_, ?_, ?_⟩
  · intro h1
    have hcs : cs = [] := by
      rw [hdel] at h1
      simpa using h1
    subst hcs
    show decryptLinesList (some (delimitedStringToList content '\n')) password = _
    rw [hdel]
    simp [decryptLinesList, versionLineToSimpleVersion, versionAtLeast_none_min]
  · intro h1 h2
    show decryptLinesList (some (delimitedStringToList content '\n')) password = _
    simp only [decryptLinesList]
    rw [if_pos h1, if_pos h2]
  · intro h1 h2
    show decryptLinesList (some (delimitedStringToList content '\n')) password = _
    simp only [decryptLinesList]
    rw [if_pos h1, if_neg (by simp [h2])]
    rw [hdel]
    simp
  · intro minV
    rfl

/-- C2 witness: a concrete Modern two-line file is routed to the Modern
decoder. -/
theorem decryptFileContent_routing_witness :
    (delimitedStringToList ("abc\n@oidc-agent 2.1.0".toList) '\n').length > 1
    ∧ decryptFileContent ("abc\n@oidc-agent 2.1.0".toList) ("pw".toList)
        = crypt_decryptFromList (delimitedStringToList ("abc\n@oidc-agent 2.1.0".toList) '\n')
            ("pw".toList) :=
  ⟨by decide,
   (decryptFileContent_routing ("abc\n@oidc-agent 2.1.0".toList) ("pw".toList)).2.1
     (by decide) (by decide)⟩

/-- C6: when the legacy shape `<len>:<hex_salt>:<hex_nonce>:<hex_cipher>` is
violated — the length field missing, zero or non-numeric (`strToInt` = 0), or
the salt, nonce or cipher token absent — `decryptHexFileContent` fails with
OIDC_ECRYPM (format_invalid). -/
theorem decryptHexFileContent_format_invalid (cipher password : List Char)
    (h : strToInt ((strtokToks cipher ':').get? 0) = 0
       ∨ (strtokToks cipher ':').get? 1 = none
       ∨ (strtokToks cipher ':').get? 2 = none
       ∨ (strtokToks cipher ':').get? 3 = none) :
    decryptHexFileContent cipher password = Except.error OidcError.OIDC_ECRYPM := by
  simp only [decryptHexFileContent]
  rw [if_pos h]

/-- C6 witness: a colon-free input has no salt/nonce/cipher fields and a
non-numeric length, and is rejected with OIDC_ECRYPM. -/
theorem decryptHexFileContent_format_invalid_witness :
    strToInt ((strtokToks ("abc".toList) ':').get? 0) = 0
    ∧ decryptHexFileContent ("abc".toList) ("pw".toList)
        = Except.error OidcError.OIDC_ECRYPM :=
  ⟨by decide,
   decryptHexFileContent_format_invalid ("abc".toList) ("pw".toList) (Or.inl (by decide))⟩

/-- C9: every embedded public operation rejects NULL required arguments with
the arg-null error (OIDC_EARGNULLFUNC) and performs no decryption, import or
export; `decryptText` accepts a NULL version and routes it to the legacy
decoder. -/
theorem null_arguments_rejected :
    (∀ password, decryptLinesList none password = Except.error OidcError.OIDC_EARGNULLFUNC)
    ∧ (∀ password version,
        decryptText none password version = Except.error OidcError.OIDC_EARGNULLFUNC)
    ∧ (∀ cipher version,
        decryptText (some cipher) none version = Except.error OidcError.OIDC_EARGNULLFUNC)
    ∧ (∀ cipher password,
        decryptText (some cipher) (some password) none = decryptHexFileContent cipher password)
    ∧ (∀ withPrivate use,
        export_jwk none withPrivate use = Except.error OidcError.OIDC_EARGNULLFUNC)
    ∧ (import_jwk none = Except.error OidcError.OIDC_EARGNULLFUNC)
    ∧ (∀ cert_path response, (import_jwk_fromURI none cert_path response
        = Except.error OidcError.OIDC_EARGNULLFUNC))
    ∧ (∀ jwk_uri response, (import_jwk_fromURI jwk_uri none response
        = Except.error OidcError.OIDC_EARGNULLFUNC)) := by
  refine ⟨fun _ => rfl, ?_, ?_, ?_, fun _ _ => rfl, rfl, ?_, ?_⟩
  · intro password version
    cases password <;> rfl
  · intro cipher version
    rfl
  · intro cipher password
    simp [decryptText, versionAtLeast_none_min]
  · intro cert_path response
    rfl
  · intro jwk_uri response
    cases jwk_uri <;> rfl

/-- C3 (amended): when the fetched JWKS document's `keys` array holds exactly
one key, that sole key is imported and returned; when it holds more than one
key, the operation fails with OIDC_NOTIMPL (not_implemented) — not with the
spec's `jwks_ambiguous` kind. -/
theorem jwkFromURI_key_selection (jwk_uri cert_path : List Char)
    (members : List (List Char × Json)) :
    (∀ k, jsonLookup ("keys".toList) members = some (Json.arr [k]) →
      (import_jwk_fromURI (some jwk_uri) (some cert_path) (some (Json.obj members))
        = import_jwk (some k)))
    ∧ (∀ ks, jsonLookup ("keys".toList) members = some (Json.arr ks) → 1 < ks.length →
      (import_jwk_fromURI (some jwk_uri) (some cert_path) (some (Json.obj members))
        = Except.error OidcError.OIDC_NOTIMPL)) := by
  constructor
  · intro k hk
    simp only [import_jwk_fromURI, getJSONValueFromString, hk, JSONArrayStringToList,
      listValid, List.isEmpty, Bool.not_false, if_true]
  · intro ks hk hlen
    match ks, hlen with
    | a :: b :: t, _ =>
      simp only [import_jwk_fromURI, getJSONValueFromString, hk, JSONArrayStringToList,
        listValid, List.isEmpty, Bool.not_false, if_true]

/-- C3 witness: a one-key document yields the import of that key (which
succeeds on the concrete key object). -/
theorem jwkFromURI_key_selection_witness :
    jsonLookup ("keys".toList) [(("keys".toList), Json.arr [Json.obj []])]
      = some (Json.arr [Json.obj []])
    ∧ (import_jwk_fromURI (some ("u".toList)) (some ("c".toList))
         (some (Json.obj [(("keys".toList), Json.arr [Json.obj []])]))
       = import_jwk (some (Json.obj [])))
    ∧ import_jwk (some (Json.obj [])) = Except.ok (Json.obj []) :=
  ⟨rfl,
   (jwkFromURI_key_selection ("u".toList) ("c".toList)
     [(("keys".toList), Json.arr [Json.obj []])]).1 (Json.obj []) rfl,
   rfl⟩

/-- C3 counterexample: for a concrete JWKS document with two keys the operation
fails with OIDC_NOTIMPL, not with the claimed `jwks_ambiguous` error kind. -/
theorem jwkFromURI_two_keys_cex :
    (import_jwk_fromURI (some ("u".toList)) (some ("c".toList))
       (some (Json.obj [(("keys".toList), Json.arr [Json.obj [], Json.obj []])]))
     = Except.error OidcError.OIDC_NOTIMPL)
    ∧ (import_jwk_fromURI (some ("u".toList)) (some ("c".toList))
         (some (Json.obj [(("keys".toList), Json.arr [Json.obj [], Json.obj []])]))
       ≠ Except.error OidcError.jwksAmbiguous) := by
  constructor
  · rfl
  · intro h
    have h2 : (Except.error OidcError.OIDC_NOTIMPL : Except OidcError Json)
        = Except.error OidcError.jwksAmbiguous := h
    simp at h2

/-- C8: a fetched JWKS response with no `keys` member, or whose `keys` member
is not an array or is an empty array, fails with OIDC_EJWKURINO ("no JWK at
URI") — a distinct error kind from the more-than-one-key OIDC_NOTIMPL case. -/
theorem jwkFromURI_no_keys (jwk_uri cert_path : List Char)
    (members : List (List Char × Json)) :
    (jsonLookup ("keys".toList) members = none →
      (import_jwk_fromURI (some jwk_uri) (some cert_path) (some (Json.obj members))
        = Except.error OidcError.OIDC_EJWKURINO))
    ∧ (∀ j, jsonLookup ("keys".toList) members = some j → JSONArrayStringToList j = none →
      (import_jwk_fromURI (some jwk_uri) (some cert_path) (some (Json.obj members))
        = Except.error OidcError.OIDC_EJWKURINO))
    ∧ (jsonLookup ("keys".toList) members = some (Json.arr []) →
      (import_jwk_fromURI (some jwk_uri) (some cert_path) (some (Json.obj members))
        = Except.error OidcError.OIDC_EJWKURINO))
    ∧ OidcError.OIDC_EJWKURINO ≠ OidcError.OIDC_NOTIMPL := by
  refine ⟨?_, ?_, ?_, by decide⟩
  · intro hk
    simp only [import_jwk_fromURI, getJSONValueFromString, hk]
  · intro j hk hj
    simp only [import_jwk_fromURI, getJSONValueFromString, hk, hj, listValid, if_false]
    rfl
  · intro hk
    simp only [import_jwk_fromURI, getJSONValueFromString, hk, JSONArrayStringToList,
      listValid, List.isEmpty, Bool.not_true, if_false]
    rfl

/-- C8 witness: a response that is an object without a `keys` member fails with
OIDC_EJWKURINO. -/
theorem jwkFromURI_no_keys_witness :
    jsonLookup ("keys".toList) ([] : List (List Char × Json)) = none
    ∧ (import_jwk_fromURI (some ("u".toList)) (some ("c".toList)) (some (Json.obj []))
        = Except.error OidcError.OIDC_EJWKURINO) :=
  ⟨rfl, (jwkFromURI_no_keys ("u".toList) ("c".toList) []).1 rfl⟩

theorem jsonLookup_append_self (key : List Char) (members : List (List Char × Json))
    (v : Json) (h : jsonLookup key members = none) :
    jsonLookup key (members ++ [(key, v)]) = some v := by
  induction members with
  | nil => simp [jsonLookup]
  | cons kv rest ih =>
    by_cases hk : kv.1 = key
    · rw [jsonLookup, if_pos hk] at h
      exact absurd h (by simp)
    · rw [jsonLookup, if_neg hk] at h
      rw [List.cons_append, jsonLookup, if_neg hk]
      exact ih h

/-- C7: `export_jwk` on a non-NULL key returns the key's JSON object with an
added `use` member — `"sig"` via `export_jwk_sig` and `"enc"` via
`export_jwk_enc`; when the key had no `use` member, the member is found by
lookup in the result. -/
theorem export_jwk_adds_use (members : List (List Char × Json)) (withPrivate : Bool) :
    export_jwk_sig (some (Json.obj members)) withPrivate
      = Except.ok (Json.obj (members ++ [(("use".toList), Json.str ("sig".toList))]))
    ∧ export_jwk_enc (some (Json.obj members)) withPrivate
      = Except.ok (Json.obj (members ++ [(("use".toList), Json.str ("enc".toList))]))
    ∧ (jsonLookup ("use".toList) members = none →
        ∃ ms, export_jwk_sig (some (Json.obj members)) withPrivate = Except.ok (Json.obj ms)
          ∧ jsonLookup ("use".toList) ms = some (Json.str ("sig".toList)))
    ∧ (jsonLookup ("use".toList) members = none →
        ∃ ms, export_jwk_enc (some (Json.obj members)) withPrivate = Except.ok (Json.obj ms)
          ∧ jsonLookup ("use".toList) ms = some (Json.str ("enc".toList))) := by
  refine ⟨rfl, rfl, ?_, ?_⟩
  · intro h
    exact ⟨members ++ [(("use".toList), Json.str ("sig".toList))], rfl,
      jsonLookup_append_self ("use".toList) members (Json.str ("sig".toList)) h⟩
  · intro h
    exact ⟨members ++ [(("use".toList), Json.str ("enc".toList))], rfl,
      jsonLookup_append_self ("use".toList) members (Json.str ("enc".toList)) h⟩

/-- C7 witness: exporting a concrete key without a `use` member yields an
object whose `use` member is `"sig"`. -/
theorem export_jwk_adds_use_witness :
    jsonLookup ("use".toList) ([] : List (List Char × Json)) = none
    ∧ ∃ ms, export_jwk_sig (some (Json.obj [])) true = Except.ok (Json.obj ms)
        ∧ jsonLookup ("use".toList) ms = some (Json.str ("sig".toList)) :=
  ⟨rfl, (export_jwk_adds_use [] true).2.2.1 rfl⟩

theorem length_oidc_memshiftr (l : List Char) : (oidc_memshiftr l).length = l.length := by
  unfold oidc_memshiftr
  cases h : l.reverse with
  | nil =>
    have : l = [] := by simpa using congrArg List.reverse h
    simp [this]
  | cons c rest =>
    have hlen : l.length = rest.length + 1 := by
      rw [← List.length_reverse l, h, List.length_cons]
    simp [hlen]

theorem length_iterate_oidc_memshiftr (k : Nat) (l : List Char) :
    (oidc_memshiftr^[k] l).length = l.length := by
  induction k with
  | zero => rfl
  | succ n ih => rw [Function.iterate_succ_apply', length_oidc_memshiftr, ih]

theorem rotateLoop_some (m : Nat) (buf s : List Char) (h : rotateLoop m buf = some s) :
    ∃ k, k < m ∧ s = oidc_memshiftr^[k] buf ∧ headAlnum s = true := by
  induction m generalizing buf with
  | zero => exact absurd h (by simp [rotateLoop])
  | succ n ih =>
    by_cases hh : headAlnum buf
    · rw [rotateLoop, if_pos hh] at h
      obtain rfl : buf = s := by simpa using h
      exact ⟨0, Nat.succ_pos n, rfl, hh⟩
    · rw [rotateLoop, if_neg hh] at h
      obtain ⟨k, hk, hs, ha⟩ := ih (oidc_memshiftr buf) h
      exact ⟨k + 1, by omega, by rw [hs, Function.iterate_succ_apply], ha⟩

theorem rotateLoop_none_iff (m : Nat) (buf : List Char) :
    rotateLoop m buf = none ↔
      ∀ k, k < m → headAlnum (oidc_memshiftr^[k] buf) = false := by
  induction m generalizing buf with
  | zero => simp [rotateLoop]
  | succ n ih =>
    constructor
    · intro h k hk
      by_cases hh : headAlnum buf
      · rw [rotateLoop, if_pos hh] at h
        exact absurd h (by simp)
      · rw [rotateLoop, if_neg hh] at h
        cases k with
        | zero => simpa using hh
        | succ j =>
          rw [Function.iterate_succ_apply]
          exact (ih (oidc_memshiftr buf)).mp h j (by omega)
    · intro hall
      have h0 : headAlnum buf = false := by simpa using hall 0 (Nat.succ_pos n)
      rw [rotateLoop, if_neg (by simp [h0])]
      exact (ih (oidc_memshiftr buf)).mpr
        (fun k hk => by rw [← Function.iterate_succ_apply]; exact hall (k + 1) (by omega))

/-- C4: for a length `n > 0` and a generated buffer of that length, a non-NULL
result of `randomString` has exactly `n` characters and an alphanumeric first
character; the retry (`none`) happens exactly when no rotation of the buffer
has an alphanumeric first character. -/
theorem randomString_first_alnum (n : Nat) (buf : List Char) (hn : 0 < n)
    (hlen : buf.length = n) :
    (∀ s, randomString n buf = some s → s.length = n ∧ headAlnum s = true)
    ∧ (randomString n buf = none ↔
        ∀ k, k < n → headAlnum (oidc_memshiftr^[k] buf) = false) := by
  constructor
  · intro s hs
    obtain ⟨k, _, hks, ha⟩ := rotateLoop_some n buf s hs
    refine ⟨?_, ha⟩
    rw [hks, length_iterate_oidc_memshiftr, hlen]
  · exact rotateLoop_none_iff n buf

/-- C4 witness: the buffer `"-a"` (length 2) is rotated once, and the returned
string `"a-"` has length 2 and an alphanumeric first character. -/
theorem randomString_first_alnum_witness :
    0 < 2 ∧ ("-a".toList).length = 2
    ∧ randomString 2 ("-a".toList) = some ("a-".toList)
    ∧ ("a-".toList).length = 2 ∧ headAlnum ("a-".toList) = true :=
  ⟨by decide, by decide, by decide,
   (randomString_first_alnum 2 ("-a".toList) (by decide) (by decide)).1
     ("a-".toList) (by decide)⟩

theorem isSpaceC_eq_false_of_isDigit (c : Char) (h : c.isDigit = true) :
    isSpaceC c = false := by
  by_contra hs
  have hs2 : isSpaceC c = true := by
    cases hcs : isSpaceC c
    · exact absurd hcs hs
    · rfl
  simp only [isSpaceC, Bool.or_eq_true, decide_eq_true_eq] at hs2
  rcases hs2 with ((((rfl | rfl) | rfl) | rfl) | rfl) | rfl <;> simp at h

theorem takeWhile_append_all (p : Char → Bool) (a b : List Char)
    (ha : ∀ c ∈ a, p c = true) :
    (a ++ b).takeWhile p = a ++ b.takeWhile p := by
  induction a with
  | nil => simp
  | cons c rest ih =>
    have hc : p c = true := ha c (by simp)
    simp only [List.cons_append, List.takeWhile_cons, hc, if_true]
    rw [ih (fun x hx => ha x (by simp [hx]))]

theorem takeWhile_digit_nil (rest : List Char) (h : headIsDigit rest = false) :
    rest.takeWhile Char.isDigit = [] := by
  cases rest with
  | nil => rfl
  | cons c t =>
    have hc : c.isDigit = false := h
    simp [List.takeWhile_cons, hc]

theorem atoi_append_ignores_tail (ds rest : List Char) (hne : ds ≠ [])
    (hd : ∀ c ∈ ds, c.isDigit = true) (hr : headIsDigit rest = false) :
    atoi (ds ++ rest) = atoi ds := by
  obtain ⟨d, ds2, rfl⟩ := List.exists_cons_of_ne_nil hne
  have hdd : d.isDigit = true := hd d (by simp)
  have hminus : d ≠ '-' := fun e => by rw [e] at hdd; exact absurd hdd (by decide)
  have hplus : d ≠ '+' := fun e => by rw [e] at hdd; exact absurd hdd (by decide)
  have hspace : isSpaceC d = false := isSpaceC_eq_false_of_isDigit d hdd
  have hall : ∀ c ∈ d :: ds2, Char.isDigit c = true := hd
  rw [atoi.eq_def, atoi.eq_def]
  simp only [List.cons_append, List.dropWhile_cons, hspace, Bool.false_eq_true, if_false]
  rw [if_neg hminus, if_neg hplus, if_neg hminus, if_neg hplus]
  rw [show d :: (ds2 ++ rest) = (d :: ds2) ++ rest from rfl,
    takeWhile_append_all Char.isDigit (d :: ds2) rest hall,
    takeWhile_digit_nil rest hr, List.append_nil,
    List.takeWhile_eq_self_iff.mpr hall]

/-- C10: the oidc-add `parse_opt` accepts at most one positional argument
(a second one triggers `argp_usage`), at the end requires one unless
`--list`, `--lock`, `--unlock` or `--remove-all` was given, rejects a
`--lifetime` argument whose first character is not a digit, and stores the
`atoi` of an accepted argument — ignoring any trailing non-digit characters. -/
theorem parse_opt_oidc_add :
    (∀ arg st n, 1 ≤ n →
      parse_opt (ArgpKey.key_arg arg) (st, n) = ParseOutcome.usage)
    ∧ (∀ arg st, parse_opt (ArgpKey.key_arg arg) (st, 0)
        = ParseOutcome.ok ({ st with account := some arg }, 1))
    ∧ (∀ st n, (st.list || st.lock || st.unlock || st.removeAll) = true →
        parse_opt ArgpKey.key_end (st, n) = ParseOutcome.ok (st, n))
    ∧ (∀ st, (st.list || st.lock || st.unlock || st.removeAll) = false →
        parse_opt ArgpKey.key_end (st, 0) = ParseOutcome.usage)
    ∧ (∀ st n, 1 ≤ n → parse_opt ArgpKey.key_end (st, n) = ParseOutcome.ok (st, n))
    ∧ (∀ arg st n, headIsDigit arg = false →
        parse_opt (ArgpKey.key_t arg) (st, n) = ParseOutcome.errUnknown)
    ∧ (∀ arg st n, headIsDigit arg = true →
        parse_opt (ArgpKey.key_t arg) (st, n)
          = ParseOutcome.ok
              ({ st with lifetime := { lifetime := atoi arg, argProvided := true } }, n))
    ∧ (∀ ds rest, ds ≠ [] → (∀ c ∈ ds, c.isDigit = true) → headIsDigit rest = false →
        atoi (ds ++ rest) = atoi ds)
    ∧ (∀ a b, argp_parse [ArgpKey.key_arg a, ArgpKey.key_arg b] = ParseOutcome.usage)
    ∧ argp_parse [] = ParseOutcome.usage
    ∧ (∀ a, argp_parse [ArgpKey.key_arg a]
        = ParseOutcome.ok ({ initArguments with account := some a }, 1))
    ∧ argp_parse [ArgpKey.key_l] = ParseOutcome.ok ({ initArguments with list := true }, 0) := by
  refine ⟨?_, fun arg st => rfl, ?_, ?_, ?_, ?_, ?_, atoi_append_ignores_tail,
    fun a b => rfl, rfl, fun a => rfl, rfl⟩
  · intro arg st n hn
    simp [parse_opt, hn]
  · intro st n hf
    simp [parse_opt, hf]
  · intro st hf
    simp [parse_opt, hf]
  · intro st n hn
    by_cases hf : (st.list || st.lock || st.unlock || st.removeAll) = true
    · simp [parse_opt, hf]
    · simp [parse_opt, hf, Nat.not_lt.mpr hn]
  · intro arg st n h
    simp [parse_opt, h]
  · intro arg st n h
    simp [parse_opt, h]

/-- C10 witness: a second positional argument is rejected, and
`--lifetime 12ab` is accepted with value `atoi "12ab" = 12`. -/
theorem parse_opt_oidc_add_witness :
    (1 ≤ 1 ∧ parse_opt (ArgpKey.key_arg ("b".toList)) (initArguments, 1) = ParseOutcome.usage)
    ∧ headIsDigit ("12ab".toList) = true
    ∧ parse_opt (ArgpKey.key_t ("12ab".toList)) (initArguments, 0)
        = ParseOutcome.ok
            ({ initArguments with
               lifetime := { lifetime := atoi ("12ab".toList), argProvided := true } }, 0)
    ∧ atoi ("12ab".toList) = 12 :=
  ⟨⟨by decide, (parse_opt_oidc_add.1 ("b".toList) initArguments 1 (by decide))⟩,
   by decide,
   (parse_opt_oidc_add.2.2.2.2.2.2.1 ("12ab".toList) initArguments 0 (by decide)),
   by decide⟩

end OidcAgent
